import Mathlib

/-!
Shallow embedding of the AI repair pipeline of the `code-fixer` repository.

The embedding covers:
* the response normalisation and line-reconstruction logic of
  `AiLiteLLM.fixESLintErrors` in `src/src/ai.ts` (lines 240-373),
* the position mapping, snippet extraction and per-file error handling of
  `fixESLintErrors` in `src/src/index.ts` (lines 186-257),
* the per-group repair loop of the AST revision of `AiLiteLLM.fixESLintErrors`
  in `src/unnamed/part_001` (lines 138-198).

JavaScript strings are modelled as Lean `String` (a list of characters); the
inputs relevant to the claims are ASCII, where JS UTF-16 indexing and Lean
character indexing agree.  JS exceptions and promise rejections are modelled
with `Except`.
-/

deriving instance DecidableEq for Except

namespace CodeFixer

/-- Whitespace test used to model `String.prototype.trim` of JS.  The claims
only involve ASCII whitespace, where the two notions agree. -/
def wsChar (c : Char) : Bool :=
  c = ' ' || c = '\t' || c = '\n' || c = '\r'

/-- `trimChars cs` models JS `trim()`: drop leading and trailing whitespace. -/
def trimChars (cs : List Char) : List Char :=
  ((cs.dropWhile wsChar).reverse.dropWhile wsChar).reverse

/-- `trimS` is `trim()` on strings. -/
def trimS (s : String) : String :=
  ⟨trimChars s.data⟩

/-- `splitNL cs` models JS `code.split('\n')`: the segments between newline
characters, in order; `splitNL [] = [[]]` just as `"".split('\n') = [""]`. -/
def splitNL : List Char → List (List Char)
  | [] => [[]]
  | c :: cs =>
    if c = '\n' then [] :: splitNL cs
    else
      match splitNL cs with
      | r :: rs => (c :: r) :: rs
      | [] => [[c]]

/-- `substrJS s a b` models JS `s.substring(a, b)`: both arguments are clamped
to `[0, s.length]` and swapped if out of order. -/
def substrJS (s : String) (a b : Int) : String :=
  let len : Int := s.data.length
  let a' : Nat := (min (max a 0) len).toNat
  let b' : Nat := (min (max b 0) len).toNat
  let lo := min a' b'
  let hi := max a' b'
  ⟨(s.data.drop lo).take (hi - lo)⟩

/-- The opening fence with the only language tag the source recognises;
`src/src/ai.ts:293` uses the regex `^`-anchored pattern with the literal
optional group `(typescript)?` followed by a newline. -/
def fenceTS : List Char := "```typescript\n".data

/-- The bare opening fence (the regex with the optional group empty). -/
def fenceBare : List Char := "```\n".data

/-- The closing fence pattern of `src/src/ai.ts:293`: `\n`-then-three-backticks
anchored at the end of the string. -/
def closeFence : List Char := "\n```".data

/-- Model of `response.replace(/^```(typescript)?\n/, '')`: remove one leading
fence, which carries either the literal tag `typescript` or no tag at all. -/
def stripLead (cs : List Char) : List Char :=
  if fenceTS.isPrefixOf cs then cs.drop fenceTS.length
  else if fenceBare.isPrefixOf cs then cs.drop fenceBare.length
  else cs

/-- Model of `.replace(/\n```$/, '')`: remove one trailing closing fence. -/
def stripTrail (cs : List Char) : List Char :=
  if closeFence.isSuffixOf cs then cs.take (cs.length - closeFence.length)
  else cs

/-- The two `replace` calls of `src/src/index.ts:243` (no trailing `trim`). -/
def stripFences (s : String) : String :=
  ⟨stripTrail (stripLead s.data)⟩

/-- The full normalisation of `src/src/ai.ts:293`:
`response.replace(/^```(typescript)?\n/, '').replace(/\n```$/, '').trim()`. -/
def stripMarkdown (s : String) : String :=
  ⟨trimChars (stripTrail (stripLead s.data))⟩

/-- One element of the `errorSnippets` array consumed by
`AiLiteLLM.fixESLintErrors` (`src/src/ai.ts:240-247`). -/
structure Snippet where
  message : String
  ruleId : String
  code : String
  context : String
  line : Int
  column : Int
deriving DecidableEq

/-- Comparator of `fixedLines.sort((a, b) => a.line - b.line)`
(`src/src/ai.ts:314`): ascending by line. -/
def lineLe (p q : Int × String) : Prop := p.1 ≤ q.1

instance : DecidableRel lineLe := fun p q => Int.decLe p.1 q.1

instance : IsTotal (Int × String) lineLe := ⟨fun a b => Int.le_total a.1 b.1⟩

instance : IsTrans (Int × String) lineLe := ⟨fun _ _ _ h1 h2 => le_trans h1 h2⟩

/-- The strict version of `lineLe`, used to show sorted lists with distinct
lines are unique. -/
def lineLt (p q : Int × String) : Prop := p.1 < q.1

instance : IsAntisymm (Int × String) lineLt := ⟨fun _ _ h1 h2 => absurd h2 (lt_asymm h1)⟩

/-- JS `Array.prototype.sort` is stable; a stable ascending sort by `line` is
insertion sort with the non-strict comparator. -/
def sortFixed (l : List (Int × String)) : List (Int × String) :=
  List.insertionSort lineLe l

/-- JS falsiness of the record lookup `lines[lineNumber]`: `undefined` and the
empty string are falsy. -/
def falsy : Option String → Bool
  | none => true
  | some s => s == ""

/-- `setIfFalsy m k v` models `if (!lines[k]) lines[k] = v` on the record
`allOriginalLines` of `src/src/ai.ts:317-327`. -/
def setIfFalsy (m : Int → Option String) (k : Int) (v : String) : Int → Option String :=
  fun n => if n = k then (if falsy (m k) then some v else m k) else m n

/-- Walk the lines of one snippet's `code`, recording each at
`lineNumber = snippet.line - snippetLines.length + index + 1`
(`src/src/ai.ts:319-325`); `k` is the line number of the next entry. -/
def addLinesFrom : (Int → Option String) → Int → List (List Char) → (Int → Option String)
  | m, _, [] => m
  | m, k, l :: rest => addLinesFrom (setIfFalsy m k ⟨l⟩) (k + 1) rest

/-- Record the code lines of one snippet (`src/src/ai.ts:318-325`). -/
def addSnippet (m : Int → Option String) (s : Snippet) : Int → Option String :=
  let ls := splitNL s.code.data
  addLinesFrom m (s.line - ls.length + 1) ls

/-- The record built by the `reduce` of `src/src/ai.ts:317-327`, viewed as a
lookup function from line numbers to recorded line texts. -/
def allOriginalLines (snips : List Snippet) : Int → Option String :=
  snips.foldl addSnippet (fun _ => none)

/-- The line-number keys one snippet contributes to `allOriginalLines`. -/
def keysOf (s : Snippet) : List Int :=
  let len := (splitNL s.code.data).length
  (List.range len).map (fun i : Nat => s.line - (len : Int) + (i : Int) + 1)

/-- All keys of the record, as enumerated by `Object.keys(allOriginalLines)`
(`src/src/ai.ts:363`); only their maximum is used. -/
def lineKeys (snips : List Snippet) : List Int :=
  snips.foldl (fun ks s => ks ++ keysOf s) []

/-- `Math.max(...keys)`; `none` models the `-Infinity` of an empty spread,
in which case the comparison `lastErrorLine < maxLine` is always false. -/
def maxKey : List Int → Option Int :=
  List.foldl (fun a k => some (match a with | none => k | some m => max m k)) none

/-- Emit the recorded original lines for `n` consecutive line numbers starting
at `a`; a missing or empty entry is skipped, exactly like the truthiness test
`if (allOriginalLines[i])` of the reconstruction loops. -/
def emitRange (m : Int → Option String) : Int → Nat → String
  | _, 0 => ""
  | a, n + 1 =>
    (match m a with
     | none => ""
     | some s => if s = "" then "" else s ++ "\n") ++ emitRange m (a + 1) n

/-- Emit the recorded lines for line numbers `a` through `b` inclusive. -/
def emitBetween (m : Int → Option String) (a b : Int) : String :=
  emitRange m a (b - a + 1).toNat

/-- The middle phase of the reconstruction (`src/src/ai.ts:344-359`): each
fixed line followed by a newline, with the recorded original lines strictly
between consecutive fixed lines in between. -/
def emitFixed (m : Int → Option String) : List (Int × String) → String
  | [] => ""
  | p :: rest =>
    p.2 ++ "\n" ++
      (match rest with
       | [] => ""
       | q :: _ => emitBetween m (p.1 + 1) (q.1 - 1)) ++
      emitFixed m rest

/-- The reconstruction of `src/src/ai.ts:329-372` from its three ingredients:
the sorted fixed lines, the record of original lines, and the maximal key. -/
def buildFromParts (sorted : List (Int × String)) (m : Int → Option String)
    (mk : Option Int) : String :=
  let F : Int := match sorted with | [] => 0 | p :: _ => p.1
  let head := if F > 1 then emitBetween m 1 (F - 1) else ""
  let L : Int := match sorted.getLast? with | none => 0 | some p => p.1
  let tail := match mk with
    | none => ""
    | some M => if L < M then emitBetween m (L + 1) M else ""
  head ++ (emitFixed m sorted ++ tail)

/-- The reconstruction applied to the (line, fixedCode) pairs produced by the
per-snippet completions. -/
def buildFixed (snips : List Snippet) (pairs : List (Int × String)) : String :=
  buildFromParts (sortFixed pairs) (allOriginalLines snips) (maxKey (lineKeys snips))

/-- The `(line, fixedCode)` pair produced for one snippet: the completion
response with markdown fences stripped (`src/src/ai.ts:293,307-310`). -/
def fixedPair (c : Snippet → String) (s : Snippet) : Int × String :=
  (s.line, stripMarkdown (c s))

/-- `AiLiteLLM.fixESLintErrors` of `src/src/ai.ts:240-373` with the network
completion abstracted as `c`: one completion per snippet, fences stripped,
sorted by line, then the line reconstruction. -/
def fixESLintErrorsCore (snips : List Snippet) (c : Snippet → String) : String :=
  buildFixed snips (snips.map (fixedPair c))

/-- The same function with a fallible completion: the `Promise.all` over the
per-snippet requests (`src/src/ai.ts:249-311`) rejects as soon as any single
request rejects, so the whole call fails. -/
def fixESLintErrorsE (snips : List Snippet) (c : Snippet → Except Unit String) :
    Except Unit String :=
  (snips.mapM (fun s => (c s).map (fun r => (s.line, stripMarkdown r)))).map
    (buildFixed snips)

/-- The error raised by the position mapper when a coordinate is outside the
buffer; `src/src/index.ts` relies on the TypeScript API throwing here. -/
inductive PosError where
  | outOfRange
deriving DecidableEq

/-- Offsets of the character following each `'\n'`, scanning from index `i`. -/
def lineStartsAux : List Char → Nat → List Nat
  | [], _ => []
  | c :: cs, i =>
    if c = '\n' then (i + 1) :: lineStartsAux cs (i + 1)
    else lineStartsAux cs (i + 1)

/-- Start offsets of the lines of `text`, as in `ts.getLineStarts`.  Line
breaks are `'\n'` (which also handles `"\r\n"`, whose break falls after the
`'\n'` in both models; a lone `'\r'` is not treated as a break here). -/
def lineStarts (text : String) : List Nat :=
  0 :: lineStartsAux text.data 0

/-- Model of `sourceFile.getPositionOfLineAndCharacter(line, ch)` of the
TypeScript library as used by `src/src/index.ts`: fails when the 0-based
`line` is outside the line-start table, returns `lineStarts[line] + ch`, and
(as the library's `Debug.assert` does) fails when that offset passes the next
line start, or the end of the text on the last line. -/
def positionOf (text : String) (line ch : Int) : Except PosError Int :=
  let ls := lineStarts text
  if line < 0 then .error .outOfRange
  else if _h : line.toNat < ls.length then
    let i := line.toNat
    let res : Int := (ls.getD i 0 : Nat) + ch
    if i + 1 < ls.length then
      if res < ((ls.getD (i + 1) 0 : Nat) : Int) then .ok res else .error .outOfRange
    else
      if res ≤ (text.data.length : Int) then .ok res else .error .outOfRange
  else .error .outOfRange

/-- One entry of `result.messages` as consumed by `src/src/index.ts:203`. -/
structure LintMessage where
  line : Int
  column : Int
  message : String
  ruleId : Option String
deriving DecidableEq

/-- The context extraction of `src/src/index.ts:221-223`: the substring from
the start of row `max(0, line - 2)` to the start of row `line + 1` (both
0-based rows; `line` is the 1-based diagnostic line), trimmed. -/
def contextOf (text : String) (line : Int) : Except PosError String := do
  let cs ← positionOf text (max 0 (line - 2)) 0
  let ce ← positionOf text (line + 1) 0
  pure (trimS (substrJS text cs ce))

/-- The per-message snippet extraction of `src/src/index.ts:203-236`,
including the two position lookups of lines 205-206 that are only used for
logging but can still throw. -/
def extractOne (text : String) (m : LintMessage) : Except PosError Snippet := do
  let _ ← positionOf text (m.line - 1) (m.column - 1)
  let _ ← positionOf text m.line 0
  let els ← positionOf text (m.line - 1) 0
  let ele ← positionOf text m.line 0
  let context ← contextOf text m.line
  pure
    { message := m.message
      ruleId := match m.ruleId with | some r => if r = "" then "未知" else r | none => "未知"
      code := trimS (substrJS text els ele)
      context := context
      line := m.line
      column := m.column }

/-- The AI branch of the per-file loop of `src/src/index.ts:191-256`: extract
all snippets, run the AI fix, strip fences once more (line 243) and write the
result; the surrounding `catch` of lines 252-256 logs, leaves the file
unwritten and continues, so on any extraction failure the file's text stays
unchanged. -/
def fixFileAI (text : String) (msgs : List LintMessage) (c : Snippet → String) : String :=
  match msgs.mapM (extractOne text) with
  | .error _ => text
  | .ok snips => stripFences (fixESLintErrorsCore snips c)

/-- A syntax-tree node span, as handed to `ASTUtils.replaceNode` by the AST
revision (`src/unnamed/part_001:181-183`).  `ASTUtils` itself is not among the
provided sources, so node contents are opaque here. -/
structure Node where
  pos : Int
  finish : Int
deriving DecidableEq

/-- One entry of the `errorGroups` map of `src/unnamed/part_001:149-156`. -/
structure ErrorGroup where
  ruleId : String
  messages : List String
  context : String
  nodes : List Node
deriving DecidableEq

/-- The inner node-replacement loop of `src/unnamed/part_001:181-183`;
`replaceNode` stands for the `ASTUtils.replaceNode` of the missing `ast.ts`
and is universally quantified in the theorems. -/
def applyGroup (replaceNode : String → Node → String → String) (text : String)
    (g : ErrorGroup) (fixedCode : String) : String :=
  g.nodes.foldl (fun t n => replaceNode t n fixedCode) text

/-- The per-group loop of `src/unnamed/part_001:153-191`: empty groups are
skipped, a failing completion is caught by the inner `catch` (lines 186-190)
which leaves the text as it was and continues with the next group. -/
def astFixLoop (replaceNode : String → Node → String → String)
    (chat : ErrorGroup → Except Unit String) : String → List ErrorGroup → String
  | text, [] => text
  | text, g :: gs =>
    if g.messages.isEmpty then astFixLoop replaceNode chat text gs
    else
      match chat g with
      | .error _ => astFixLoop replaceNode chat text gs
      | .ok r => astFixLoop replaceNode chat (applyGroup replaceNode text g (trimS r)) gs

/-- The AST revision of `AiLiteLLM.fixESLintErrors`
(`src/unnamed/part_001:138-198`): parsing and grouping (`ts.createSourceFile`
plus `ASTUtils.groupErrorsByType`, abstracted as `parseGroups` since `ast.ts`
is not among the provided sources) may throw; the outer `catch` of lines
194-197 then returns the original `sourceText`. -/
def fixESLintErrorsAst (sourceText : String)
    (parseGroups : String → Except Unit (List ErrorGroup))
    (replaceNode : String → Node → String → String)
    (chat : ErrorGroup → Except Unit String) : String :=
  match parseGroups sourceText with
  | .error _ => sourceText
  | .ok groups => astFixLoop replaceNode chat sourceText groups

/-! ### Helper lemmas -/

theorem isPrefixOf_self_append (l t : List Char) : l.isPrefixOf (l ++ t) = true := by
  induction l with
  | nil => simp
  | cons a l ih => simp [List.isPrefixOf, ih]

theorem take_len_of_isPrefixOf_append :
    ∀ (p q rest : List Char), p.isPrefixOf (q ++ rest) = true → q.length ≤ p.length →
      p.take q.length = q := by
  intro p q
  induction q generalizing p with
  | nil => intro rest _ _; simp
  | cons b q ih =>
    intro rest hpre hlen
    cases p with
    | nil => simp at hlen
    | cons a p =>
      rw [List.cons_append] at hpre
      simp only [List.isPrefixOf, Bool.and_eq_true, beq_iff_eq] at hpre
      have := ih p rest hpre.2 (by simpa using hlen)
      simp [List.take, hpre.1, this]

theorem isSuffixOf_append_self (l t : List Char) : l.isSuffixOf (t ++ l) = true := by
  simp [List.isSuffixOf, List.reverse_append, isPrefixOf_self_append]

theorem stripLead_fenceTS (rest : List Char) : stripLead (fenceTS ++ rest) = rest := by
  simp [stripLead, isPrefixOf_self_append, List.drop_left]

theorem fenceTS_not_into_bare (rest : List Char) :
    fenceTS.isPrefixOf (fenceBare ++ rest) = false := by
  cases h : fenceTS.isPrefixOf (fenceBare ++ rest) with
  | false => rfl
  | true =>
    have h4 : fenceBare.length ≤ fenceTS.length := by decide
    have := take_len_of_isPrefixOf_append fenceTS fenceBare rest h h4
    exact absurd this (by decide)

theorem stripLead_fenceBare (rest : List Char) : stripLead (fenceBare ++ rest) = rest := by
  simp [stripLead, fenceTS_not_into_bare, isPrefixOf_self_append, List.drop_left]

theorem stripTrail_closeFence (x : List Char) : stripTrail (x ++ closeFence) = x := by
  have hlen : (x ++ closeFence).length - closeFence.length = x.length := by
    simp [List.length_append]
  simp only [stripTrail, isSuffixOf_append_self, if_true, hlen, List.take_left]

theorem splitNL_single {cs : List Char} (h : ('\n' : Char) ∉ cs) : splitNL cs = [cs] := by
  induction cs with
  | nil => rfl
  | cons c cs ih =>
    have hc : ¬ c = '\n' := fun e => h (e ▸ List.mem_cons_self c cs)
    have hcs : ('\n' : Char) ∉ cs := fun m => h (List.mem_cons_of_mem _ m)
    simp [splitNL, hc, ih hcs]

theorem keysOf_single {s : Snippet} (h : ('\n' : Char) ∉ s.code.data) :
    keysOf s = [s.line] := by
  have h1 : (splitNL s.code.data).length = 1 := by rw [splitNL_single h]; rfl
  have h2 : List.range 1 = [0] := rfl
  simp only [keysOf, h1, h2, List.map_cons, List.map_nil, List.cons.injEq, and_true]
  omega

theorem addSnippet_single (m : Int → Option String) (s : Snippet)
    (h : ('\n' : Char) ∉ s.code.data) : addSnippet m s = setIfFalsy m s.line s.code := by
  simp only [addSnippet, splitNL_single h, List.length_cons, List.length_nil, addLinesFrom]
  have he : s.line - ((0 : Nat) + 1 : Nat) + 1 = s.line := by omega
  rw [he]

theorem setIfFalsy_comm {k₁ k₂ : Int} (hk : k₁ ≠ k₂) (m : Int → Option String)
    (v₁ v₂ : String) :
    setIfFalsy (setIfFalsy m k₁ v₁) k₂ v₂ = setIfFalsy (setIfFalsy m k₂ v₂) k₁ v₁ := by
  funext n
  simp only [setIfFalsy]
  by_cases h1 : n = k₁ <;> by_cases h2 : n = k₂
  · exact absurd (h1 ▸ h2) hk
  · simp [h1, h2, hk, Ne.symm hk]
  · simp [h1, h2, hk, Ne.symm hk]
  · simp [h1, h2]

theorem addSnippet_comm {s t : Snippet} (hne : s.line ≠ t.line)
    (hs : ('\n' : Char) ∉ s.code.data) (ht : ('\n' : Char) ∉ t.code.data)
    (m : Int → Option String) :
    addSnippet (addSnippet m s) t = addSnippet (addSnippet m t) s := by
  rw [addSnippet_single _ _ hs, addSnippet_single _ _ ht, addSnippet_single _ _ ht,
    addSnippet_single _ _ hs, setIfFalsy_comm hne]

theorem sortFixed_eq_of_perm {l₁ l₂ : List (Int × String)} (p : l₁.Perm l₂)
    (hd : l₁.Pairwise (fun a b => a.1 ≠ b.1)) : sortFixed l₁ = sortFixed l₂ := by
  have hd₂ : l₂.Pairwise (fun a b => a.1 ≠ b.1) :=
    (p.pairwise_iff (fun h => Ne.symm h)).mp hd
  have hp : (sortFixed l₁).Perm (sortFixed l₂) :=
    (List.perm_insertionSort lineLe l₁).trans (p.trans (List.perm_insertionSort lineLe l₂).symm)
  have hle₁ : (sortFixed l₁).Pairwise lineLe := List.sorted_insertionSort lineLe l₁
  have hle₂ : (sortFixed l₂).Pairwise lineLe := List.sorted_insertionSort lineLe l₂
  have hne₁ : (sortFixed l₁).Pairwise (fun a b => a.1 ≠ b.1) :=
    ((List.perm_insertionSort lineLe l₁).pairwise_iff (fun h => Ne.symm h)).mpr hd
  have hne₂ : (sortFixed l₂).Pairwise (fun a b => a.1 ≠ b.1) :=
    ((List.perm_insertionSort lineLe l₂).pairwise_iff (fun h => Ne.symm h)).mpr hd₂
  have hlt₁ : (sortFixed l₁).Sorted lineLt :=
    (hle₁.and hne₁).imp (fun h => lt_of_le_of_ne h.1 h.2)
  have hlt₂ : (sortFixed l₂).Sorted lineLt :=
    (hle₂.and hne₂).imp (fun h => lt_of_le_of_ne h.1 h.2)
  exact List.eq_of_perm_of_sorted hp hlt₁ hlt₂

theorem allOriginalLines_eq_of_perm {l₁ l₂ : List Snippet} (p : l₁.Perm l₂)
    (hd : l₁.Pairwise (fun a b => a.line ≠ b.line))
    (hsingle : ∀ s ∈ l₁, ('\n' : Char) ∉ s.code.data) :
    allOriginalLines l₁ = allOriginalLines l₂ := by
  unfold allOriginalLines
  refine p.foldl_eq' ?_ _
  intro x hx y hy z
  by_cases hxy : x = y
  · rw [hxy]
  · exact addSnippet_comm (hd.forall (fun a b h => Ne.symm h) hx hy hxy)
      (hsingle x hx) (hsingle y hy) z

theorem lineKeys_aux {l : List Snippet} (h : ∀ s ∈ l, ('\n' : Char) ∉ s.code.data) :
    ∀ acc : List Int,
      l.foldl (fun ks s => ks ++ keysOf s) acc = acc ++ l.map (fun s => s.line) := by
  induction l with
  | nil => intro acc; simp
  | cons a l ih =>
    intro acc
    have ha : ('\n' : Char) ∉ a.code.data := h a (List.mem_cons_self a l)
    have hl : ∀ s ∈ l, ('\n' : Char) ∉ s.code.data :=
      fun s hs => h s (List.mem_cons_of_mem _ hs)
    simp only [List.foldl_cons, List.map_cons, ih hl, keysOf_single ha]
    simp

theorem lineKeys_eq_map {l : List Snippet} (h : ∀ s ∈ l, ('\n' : Char) ∉ s.code.data) :
    lineKeys l = l.map (fun s => s.line) := by
  have := lineKeys_aux h []
  simpa [lineKeys] using this

theorem maxKey_perm {l₁ l₂ : List Int} (p : l₁.Perm l₂) : maxKey l₁ = maxKey l₂ := by
  unfold maxKey
  refine p.foldl_eq' ?_ _
  intro x _ y _ z
  cases z with
  | none => simp [max_comm]
  | some m => simp only [Option.some.injEq]; rw [max_assoc, max_assoc, max_comm x y]

/-! ### Position-mapper lemmas -/

theorem lineStartsAux_mem_bound :
    ∀ (cs : List Char) (i x : Nat), x ∈ lineStartsAux cs i → i < x ∧ x ≤ i + cs.length := by
  intro cs
  induction cs with
  | nil => intro i x hx; cases hx
  | cons c cs ih =>
    intro i x hx
    simp only [lineStartsAux] at hx
    by_cases hc : c = '\n'
    · rw [if_pos hc] at hx
      rcases List.mem_cons.mp hx with rfl | hx
      · refine ⟨by omega, ?_⟩
        simp only [List.length_cons]
        omega
      · rcases ih (i + 1) x hx with ⟨h1, h2⟩
        refine ⟨by omega, ?_⟩
        simp only [List.length_cons]
        omega
    · rw [if_neg hc] at hx
      rcases ih (i + 1) x hx with ⟨h1, h2⟩
      refine ⟨by omega, ?_⟩
      simp only [List.length_cons]
      omega

theorem lineStartsAux_pairwise :
    ∀ (cs : List Char) (i : Nat), (lineStartsAux cs i).Pairwise (· < ·) := by
  intro cs
  induction cs with
  | nil => intro i; exact List.Pairwise.nil
  | cons c cs ih =>
    intro i
    simp only [lineStartsAux]
    by_cases hc : c = '\n'
    · rw [if_pos hc]
      exact List.Pairwise.cons
        (fun x hx => by
          have := (lineStartsAux_mem_bound cs (i + 1) x hx).1
          omega)
        (ih (i + 1))
    · rw [if_neg hc]
      exact ih (i + 1)

theorem lineStarts_pairwise (text : String) : (lineStarts text).Pairwise (· < ·) :=
  List.Pairwise.cons
    (fun x hx => (lineStartsAux_mem_bound text.data 0 x hx).1)
    (lineStartsAux_pairwise text.data 0)

theorem lineStarts_le_len (text : String) : ∀ x ∈ lineStarts text, x ≤ text.data.length := by
  intro x hx
  rcases List.mem_cons.mp hx with rfl | hx
  · omega
  · have := (lineStartsAux_mem_bound text.data 0 x hx).2
    omega

theorem getD_mem_of_lt : ∀ (l : List Nat) (i d : Nat), i < l.length → l.getD i d ∈ l := by
  intro l
  induction l with
  | nil => intro i d h; simp at h
  | cons a l ih =>
    intro i d h
    cases i with
    | zero => exact List.mem_cons_self a l
    | succ j =>
      simp only [List.getD_cons_succ]
      exact List.mem_cons_of_mem _ (ih j d (by simpa using h))

theorem pairwise_lt_getD :
    ∀ (l : List Nat), l.Pairwise (· < ·) → ∀ i, i + 1 < l.length →
      l.getD i 0 < l.getD (i + 1) 0 := by
  intro l
  induction l with
  | nil => intro _ i h; simp at h
  | cons a l ih =>
    intro hp i h
    rcases List.pairwise_cons.mp hp with ⟨ha, hl⟩
    cases i with
    | zero =>
      cases l with
      | nil => simp at h
      | cons b l' =>
        simpa using ha b (List.mem_cons_self b l')
    | succ j =>
      simp only [List.getD_cons_succ]
      exact ih hl j (by simpa using h)

theorem lineStarts_length_pos (text : String) : 0 < (lineStarts text).length := by
  simp [lineStarts]

theorem positionOf_oob (text : String) (line ch : Int)
    (h : ((lineStarts text).length : Int) ≤ line) :
    positionOf text line ch = Except.error PosError.outOfRange := by
  have hpos := lineStarts_length_pos text
  have h0 : ¬ line < 0 := by omega
  have h1 : ¬ line.toNat < (lineStarts text).length := by omega
  simp only [positionOf, if_neg h0, dif_neg h1]

theorem positionOf_zero_ok (text : String) (line : Int) (h0 : 0 ≤ line)
    (h : line < ((lineStarts text).length : Int)) :
    positionOf text line 0 =
      Except.ok (((lineStarts text).getD line.toNat 0 : Nat) : Int) := by
  have hnl : ¬ line < 0 := by omega
  have ht : line.toNat < (lineStarts text).length := by omega
  by_cases h2 : line.toNat + 1 < (lineStarts text).length
  · have hlt : (lineStarts text).getD line.toNat 0 < (lineStarts text).getD (line.toNat + 1) 0 :=
      pairwise_lt_getD _ (lineStarts_pairwise text) _ h2
    have hlt' : (((lineStarts text).getD line.toNat 0 : Nat) : Int) <
        (((lineStarts text).getD (line.toNat + 1) 0 : Nat) : Int) := by omega
    simp only [positionOf, if_neg hnl, dif_pos ht, if_pos h2, Int.add_zero, if_pos hlt']
  · have hmem : (lineStarts text).getD line.toNat 0 ∈ lineStarts text :=
      getD_mem_of_lt _ _ _ ht
    have hle : (lineStarts text).getD line.toNat 0 ≤ text.data.length :=
      lineStarts_le_len text _ hmem
    have hle' : (((lineStarts text).getD line.toNat 0 : Nat) : Int) ≤
        (text.data.length : Int) := by omega
    simp only [positionOf, if_neg hnl, dif_pos ht, if_neg h2, Int.add_zero, if_pos hle']

theorem mapM_ok_forall {α β : Type} {f : α → Except PosError β} :
    ∀ (l : List α) (r : List β), l.mapM f = Except.ok r → ∀ a ∈ l, ∃ b, f a = Except.ok b := by
  intro l
  induction l with
  | nil => intro r _ a ha; cases ha
  | cons x l ih =>
    intro r h a ha
    rw [List.mapM_cons] at h
    cases hx : f x with
    | error e => rw [hx] at h; simp [Bind.bind, Except.bind] at h
    | ok b =>
      rw [hx] at h
      simp only [Bind.bind, Except.bind] at h
      cases hl : l.mapM f with
      | error e => rw [hl] at h; simp at h
      | ok bs =>
        rcases List.mem_cons.mp ha with rfl | ha
        · exact ⟨b, hx⟩
        · exact ih bs hl a ha

theorem extractOne_oob (text : String) (m : LintMessage)
    (h : ((lineStarts text).length : Int) < m.line) :
    extractOne text m = Except.error PosError.outOfRange := by
  have h1 : positionOf text (m.line - 1) (m.column - 1) = Except.error PosError.outOfRange :=
    positionOf_oob text _ _ (by omega)
  simp [extractOne, h1, Bind.bind, Except.bind]

theorem positionOf_ok_bounds (text : String) (line ch v : Int)
    (h : positionOf text line ch = Except.ok v) :
    0 ≤ line ∧ line < ((lineStarts text).length : Int) := by
  by_cases h0 : line < 0
  · simp [positionOf, h0] at h
  · by_cases h1 : line.toNat < (lineStarts text).length
    · constructor <;> omega
    · simp [positionOf, h0, h1] at h

/-! ### Claim theorems -/

/-- C1: the claim says the line reconstruction of `fixESLintErrors` preserves
every byte outside the repaired spans and satisfies the round-trip law.  The
code is a slip: `allOriginalLines` only ever holds the error lines themselves
(each snippet's `code` is the single trimmed error line), so the loops meant
to re-emit the file's other lines find nothing.  For the three-line file
`"a\nb\nc"` with one diagnostic on line 2 repaired to `"B"`, the function
returns `"B\n"` — the untouched lines `a` and `c` are deleted — instead of
the byte-preserving `"a\nB\nc"`. -/
theorem c1_reconstruction_drops_untouched_lines :
    fixESLintErrorsCore
        [{ message := "m", ruleId := "r", code := "b", context := "a\nb\nc",
           line := 2, column := 1 }] (fun _ => "B") = "B\n"
      ∧ ("B\n" : String) ≠ "a\nB\nc" := by
  exact ⟨by decide, by decide⟩

/-- C2 counterexample: `fixESLintErrors` applied to an empty error-snippet
list returns the empty string, not the input text (which it never receives);
for the source text `"const x = 1"` the claimed identity fails. -/
theorem c2_counterexample :
    fixESLintErrorsCore [] (fun _ => "") = "" ∧ ("const x = 1" : String) ≠ "" :=
  ⟨rfl, by decide⟩

/-- C2 amended: on an empty snippet list the snippet-based `fixESLintErrors`
returns the empty string for every completion function; the identity claimed
by the spec holds at the caller only because files with zero errors are
filtered out before repair and never rewritten. -/
theorem c2_empty_snippets_yield_empty :
    ∀ c : Snippet → String, fixESLintErrorsCore [] c = "" :=
  fun _ => rfl

/-- C3 counterexample: there is no no-op guard.  When the completion response
strips to the empty string, the error line (`"const x = 1"` on line 1) is
replaced by an empty line — the output is `"\n"`, not the original line. -/
theorem c3_counterexample :
    fixESLintErrorsCore
        [{ message := "m", ruleId := "r", code := "const x = 1",
           context := "const x = 1", line := 1, column := 1 }] (fun _ => "") = "\n"
      ∧ ("\n" : String) ≠ "const x = 1\n" := by
  exact ⟨by decide, by decide⟩

/-- C3 amended: an empty post-strip response is used as the replacement line
unchanged, so the repaired span becomes an empty line (the code is deleted)
rather than being kept byte-identical. -/
theorem c3_amended (s : Snippet) (c : Snippet → String) (h1 : s.line = 1)
    (h2 : ('\n' : Char) ∉ s.code.data) (h3 : stripMarkdown (c s) = "") :
    fixESLintErrorsCore [s] c = "\n" := by
  simp [fixESLintErrorsCore, buildFixed, fixedPair, h1, h3, sortFixed, List.insertionSort,
    List.orderedInsert, lineKeys, keysOf_single h2, maxKey, buildFromParts, emitFixed]

theorem c3_amended_witness :
    fixESLintErrorsCore
        [{ message := "m", ruleId := "r", code := "x", context := "x",
           line := 1, column := 1 }] (fun _ => "") = "\n" :=
  c3_amended _ _ rfl (by decide) (by decide)

/-- C4 counterexample: two diagnostics on the same line (same located span)
produce two completions and two concatenated fixed lines `"A\nB\n"`, not
exactly one replacement for the shared span. -/
theorem c4_counterexample :
    fixESLintErrorsCore
        [{ message := "m1", ruleId := "r1", code := "x", context := "x",
           line := 1, column := 1 },
         { message := "m2", ruleId := "r2", code := "x", context := "x",
           line := 1, column := 5 }]
        (fun s => if s.message = "m1" then "A" else "B") = "A\nB\n"
      ∧ ("A\nB\n" : String) ≠ "A\n" := by
  exact ⟨by decide, by decide⟩

/-- C4 amended: no span grouping exists in the snippet revision — each
diagnostic gets its own completion and contributes its own fixed line; two
diagnostics on the same line yield the two stripped responses concatenated in
input order (the AST revision groups per `ruleId`, not per span). -/
theorem c4_amended (s1 s2 : Snippet) (c : Snippet → String) (h1 : s1.line = 1)
    (h2 : s2.line = 1) (hc1 : ('\n' : Char) ∉ s1.code.data)
    (hc2 : ('\n' : Char) ∉ s2.code.data) :
    fixESLintErrorsCore [s1, s2] c =
      stripMarkdown (c s1) ++ "\n" ++ (stripMarkdown (c s2) ++ "\n") := by
  simp [fixESLintErrorsCore, buildFixed, fixedPair, h1, h2, sortFixed, List.insertionSort,
    List.orderedInsert, lineLe, lineKeys, keysOf_single hc1, keysOf_single hc2, maxKey,
    buildFromParts, emitFixed, emitBetween, emitRange]

theorem c4_amended_witness :
    fixESLintErrorsCore
        [{ message := "m1", ruleId := "r", code := "x", context := "x",
           line := 1, column := 1 },
         { message := "m2", ruleId := "r", code := "x", context := "x",
           line := 1, column := 5 }]
        (fun s => if s.message = "m1" then "A" else "B") = "A" ++ "\n" ++ ("B" ++ "\n") :=
  (c4_amended _ _ _ rfl rfl (by decide) (by decide)).trans (by decide)

/-- C5 counterexample: the snippet revision fans out with `Promise.all`, which
rejects as soon as one completion rejects; with the first snippet's completion
failing and the second succeeding, the whole call errors, so the second
group's repair is aborted too instead of only the failing one being skipped
(and no skipped list exists in the result). -/
theorem c5_counterexample :
    fixESLintErrorsE
        [{ message := "m1", ruleId := "r1", code := "x", context := "x",
           line := 1, column := 1 },
         { message := "m2", ruleId := "r2", code := "y", context := "y",
           line := 2, column := 1 }]
        (fun s => if s.message = "m1" then Except.error () else Except.ok "B")
      = Except.error () := by
  decide

/-- C5 amended: only the AST revision contains the failure per group — its
inner catch drops a group whose completion fails and continues with the
remaining groups unchanged; the failure is only logged, never surfaced in a
skipped list, and in the snippet revision one rejection aborts the whole
`Promise.all`. -/
theorem c5_amended (replaceNode : String → Node → String → String)
    (chat : ErrorGroup → Except Unit String) (text : String) (g : ErrorGroup)
    (gs : List ErrorGroup) (h : chat g = Except.error ()) :
    astFixLoop replaceNode chat text (g :: gs) = astFixLoop replaceNode chat text gs := by
  by_cases he : g.messages.isEmpty <;> simp [astFixLoop, he, h]

theorem c5_amended_witness :
    astFixLoop (fun t _ _ => t) (fun _ => Except.error ()) "src"
        [{ ruleId := "r", messages := ["m"], context := "ctx", nodes := [] }]
      = astFixLoop (fun t _ _ => t) (fun _ => Except.error ()) "src" [] :=
  c5_amended _ _ _ _ _ rfl

/-- C6 counterexample: for the four-line file `"a\nb\nc\nd"` with one
in-range diagnostic (line 1) and one out-of-range diagnostic (line 9), the
snippet extraction of the whole file throws — even though the in-range
diagnostic alone extracts fine — and the per-file catch leaves the file text
unchanged; nothing is recorded in any skipped list, the in-range diagnostic
is dropped along with the bad one. -/
theorem c6_counterexample :
    ([{ line := 1, column := 1, message := "msg1", ruleId := some "r1" },
      { line := 9, column := 1, message := "msg2", ruleId := none }] :
        List LintMessage).mapM (extractOne "a\nb\nc\nd")
      = Except.error PosError.outOfRange
    ∧ ([{ line := 1, column := 1, message := "msg1", ruleId := some "r1" }] :
        List LintMessage).mapM (extractOne "a\nb\nc\nd")
      = Except.ok
          [{ message := "msg1", ruleId := "r1", code := "a", context := "a\nb",
             line := 1, column := 1 }]
    ∧ fixFileAI "a\nb\nc\nd"
        [{ line := 1, column := 1, message := "msg1", ruleId := some "r1" },
         { line := 9, column := 1, message := "msg2", ruleId := none }] (fun _ => "z")
      = "a\nb\nc\nd" := by
  exact ⟨by decide, by decide, by decide⟩

/-- C6 amended: a diagnostic whose line exceeds the file's line count makes
position mapping fail with the out-of-range error, which aborts the snippet
extraction of that entire file; the per-file catch then leaves the file's
text unchanged and the run continues with the next file (the model is total),
but no skipped list is produced and the file's other diagnostics are dropped
too. -/
theorem c6_amended (text : String) (msgs : List LintMessage) (c : Snippet → String)
    (m : LintMessage) (hm : m ∈ msgs)
    (hline : ((lineStarts text).length : Int) < m.line) :
    fixFileAI text msgs c = text := by
  cases h : msgs.mapM (extractOne text) with
  | error e => unfold fixFileAI; rw [h]
  | ok snips =>
    rcases mapM_ok_forall msgs snips h m hm with ⟨s, hs⟩
    rw [extractOne_oob text m hline] at hs
    exact absurd hs (by simp)

theorem c6_amended_witness :
    fixFileAI "a\nb" [{ line := 9, column := 1, message := "m", ruleId := none }]
      (fun _ => "q") = "a\nb" :=
  c6_amended "a\nb" _ _ { line := 9, column := 1, message := "m", ruleId := none }
    (List.mem_cons_self _ _) (by decide)

/-- C7 counterexample: the context extractor does not clamp the upper window
end — for the two-line file `"a\nb"` and a diagnostic on line 2 it fails with
the out-of-range error instead of returning the clamped window `"a\nb"`; and
the window is trimmed of all surrounding whitespace, not just blank lines —
for `"  x\ny\nz"` and line 1 it returns `"x\ny"`, losing the indentation of
the (non-blank) first line that blank-line trimming would keep. -/
theorem c7_counterexample :
    contextOf "a\nb" 2 = Except.error PosError.outOfRange
      ∧ contextOf "  x\ny\nz" 1 = Except.ok "x\ny" := by
  exact ⟨by decide, by decide⟩

/-- C7 amended: the extractor is a deterministic function that clamps the
window only at the bottom (`max(0, line - 2)`); it succeeds exactly when the
row one past the diagnostic line still exists (`line + 1 < number of rows`),
and otherwise fails with the out-of-range error instead of clamping to the
last line. -/
theorem c7_amended (text : String) (line : Int) (h1 : 1 ≤ line) :
    ((contextOf text line).isOk = true ↔ line + 1 < ((lineStarts text).length : Int))
      ∧ (((lineStarts text).length : Int) ≤ line + 1 →
          contextOf text line = Except.error PosError.outOfRange) := by
  have hlen : 0 < (lineStarts text).length := lineStarts_length_pos text
  have hiff : (contextOf text line).isOk = true ↔
      line + 1 < ((lineStarts text).length : Int) := by
    constructor
    · intro hok
      cases hc1 : positionOf text (max 0 (line - 2)) 0 with
      | error e =>
        simp [contextOf, hc1, Bind.bind, Except.bind, Except.isOk, Except.toBool] at hok
      | ok v1 =>
        cases hc2 : positionOf text (line + 1) 0 with
        | error e =>
          simp [contextOf, hc1, hc2, Bind.bind, Except.bind, Except.isOk,
            Except.toBool] at hok
        | ok v2 => exact (positionOf_ok_bounds text (line + 1) 0 v2 hc2).2
    · intro hlt
      have ha : (0 : Int) ≤ max 0 (line - 2) := le_max_left 0 _
      have hb : max 0 (line - 2) < ((lineStarts text).length : Int) := by
        rcases max_cases 0 (line - 2) with ⟨he, _⟩ | ⟨he, _⟩ <;> omega
      simp only [contextOf, positionOf_zero_ok text _ ha hb,
        positionOf_zero_ok text _ (by omega : (0 : Int) ≤ line + 1) hlt,
        Bind.bind, Except.bind, Except.isOk, Except.toBool, Pure.pure, Except.pure]
  refine ⟨hiff, fun hge => ?_⟩
  cases hres : contextOf text line with
  | ok v =>
    have hok : (contextOf text line).isOk = true := by
      simp [hres, Except.isOk, Except.toBool]
    have := hiff.mp hok
    omega
  | error e => cases e; rfl

theorem c7_amended_witness :
    ((contextOf "a\nb\nc\nd" 1).isOk = true
        ↔ (1 : Int) + 1 < ((lineStarts "a\nb\nc\nd").length : Int))
      ∧ (((lineStarts "a\nb\nc\nd").length : Int) ≤ (1 : Int) + 1 →
          contextOf "a\nb\nc\nd" 1 = Except.error PosError.outOfRange) :=
  c7_amended "a\nb\nc\nd" 1 (by decide)

/-- C8 counterexample: the leading-fence pattern recognises only the literal
tag `typescript` (or no tag); a response fenced with the tag `js` keeps its
opening fence — the result is `"```js\nfoo"`, not `"foo"`. -/
theorem c8_counterexample :
    stripMarkdown "```js\nfoo\n```" = "```js\nfoo"
      ∧ stripMarkdown "```js\nfoo\n```" ≠ "foo" := by
  exact ⟨by decide, by decide⟩

/-- C8 amended: the normalisation strips one leading fence only when it is
bare or carries exactly the tag `typescript`, strips one trailing closing
fence, and trims surrounding whitespace. -/
theorem c8_amended (body : String) :
    stripMarkdown ("```typescript\n" ++ body ++ "\n```") = trimS body
      ∧ stripMarkdown ("```\n" ++ body ++ "\n```") = trimS body := by
  constructor
  · have hd : ("```typescript\n" ++ body ++ "\n```").data =
        fenceTS ++ (body.data ++ closeFence) := by
      simp [fenceTS, closeFence, List.append_assoc]
    unfold stripMarkdown
    rw [hd, stripLead_fenceTS, stripTrail_closeFence]
    rfl
  · have hd : ("```\n" ++ body ++ "\n```").data =
        fenceBare ++ (body.data ++ closeFence) := by
      simp [fenceBare, closeFence, List.append_assoc]
    unfold stripMarkdown
    rw [hd, stripLead_fenceBare, stripTrail_closeFence]
    rfl

/-- C9 counterexample: two diagnostics on the same line are kept in input
order by the stable sort, so swapping them swaps the fixed lines in the
output: the repaired text is `"A\nB\n"` in one order and `"B\nA\n"` in the
other — order invariance fails even with the same completion per
diagnostic. -/
theorem c9_counterexample :
    fixESLintErrorsCore
        [{ message := "m1", ruleId := "r", code := "x", context := "x",
           line := 1, column := 1 },
         { message := "m2", ruleId := "r", code := "x", context := "x",
           line := 1, column := 5 }]
        (fun s => if s.message = "m1" then "A" else "B") = "A\nB\n"
      ∧ fixESLintErrorsCore
        [{ message := "m2", ruleId := "r", code := "x", context := "x",
           line := 1, column := 5 },
         { message := "m1", ruleId := "r", code := "x", context := "x",
           line := 1, column := 1 }]
        (fun s => if s.message = "m1" then "A" else "B") = "B\nA\n" := by
  exact ⟨by decide, by decide⟩

/-- C9 amended: permuting the diagnostics preserves the repaired text
whenever the diagnostics lie on pairwise distinct lines (with each snippet
carrying its single error line, as the extraction always produces): the
stable sort, the record of original lines and the maximal key are then all
order independent. -/
theorem c9_amended (l₁ l₂ : List Snippet) (c : Snippet → String) (p : l₁.Perm l₂)
    (hd : l₁.Pairwise (fun a b => a.line ≠ b.line))
    (hsingle : ∀ s ∈ l₁, ('\n' : Char) ∉ s.code.data) :
    fixESLintErrorsCore l₁ c = fixESLintErrorsCore l₂ c := by
  have hd₂ : l₂.Pairwise (fun a b => a.line ≠ b.line) :=
    (p.pairwise_iff (fun h => Ne.symm h)).mp hd
  have hsingle₂ : ∀ s ∈ l₂, ('\n' : Char) ∉ s.code.data :=
    fun s hs => hsingle s (p.mem_iff.mpr hs)
  have hmap : (l₁.map (fixedPair c)).Perm (l₂.map (fixedPair c)) := p.map _
  have hdm : (l₁.map (fixedPair c)).Pairwise (fun a b => a.1 ≠ b.1) :=
    List.pairwise_map.mpr hd
  unfold fixESLintErrorsCore buildFixed
  rw [sortFixed_eq_of_perm hmap hdm, allOriginalLines_eq_of_perm p hd hsingle,
    lineKeys_eq_map hsingle, lineKeys_eq_map hsingle₂,
    maxKey_perm (p.map (fun s => s.line))]

theorem c9_amended_witness :
    fixESLintErrorsCore
        [{ message := "m1", ruleId := "r", code := "x", context := "x",
           line := 1, column := 1 },
         { message := "m2", ruleId := "r", code := "y", context := "y",
           line := 2, column := 1 }] (fun _ => "ok")
      = fixESLintErrorsCore
        [{ message := "m2", ruleId := "r", code := "y", context := "y",
           line := 2, column := 1 },
         { message := "m1", ruleId := "r", code := "x", context := "x",
           line := 1, column := 1 }] (fun _ => "ok") :=
  c9_amended _ _ _ (List.Perm.swap _ _ _) (by decide) (by decide)

/-- C10: in the AST revision, any exception escaping past the per-group loop
(parsing or grouping throws before the loop; the loop body itself recovers
per-group failures locally) reaches the outer catch, which returns the
original `sourceText` unchanged — never a partially rewritten buffer. -/
theorem c10_atomic_on_escape (sourceText : String)
    (parseGroups : String → Except Unit (List ErrorGroup))
    (replaceNode : String → Node → String → String)
    (chat : ErrorGroup → Except Unit String)
    (h : parseGroups sourceText = Except.error ()) :
    fixESLintErrorsAst sourceText parseGroups replaceNode chat = sourceText := by
  simp [fixESLintErrorsAst, h]

theorem c10_atomic_on_escape_witness :
    fixESLintErrorsAst "let x = 1" (fun _ => Except.error ()) (fun t _ _ => t)
      (fun _ => Except.ok "y") = "let x = 1" :=
  c10_atomic_on_escape _ _ _ _ rfl

end CodeFixer
